import Mathlib

/-!
Verification of the agora ledger event pipeline and its stores.

The eventStream section is a shallow embedding of pkg/account/server/stream.go:
each Go method over the mutex-guarded stream state becomes a pure state
transformer on an explicit EventStream value (the lock serialises the methods,
so the sequential model is faithful for the properties proved here).
-/

/-- Payload of one stream item, mirroring eventData in stream.go; the XDR
envelope, result and meta blobs are abstracted to numeric identifiers since
notify and close never inspect them. -/
structure EventData where
  e : Nat
  r : Nat
  m : Nat
deriving DecidableEq, Repr

/-- State of an eventStream: the closed flag, whether the underlying Go
channel has been closed, the channel buffer capacity, and the buffered
contents in order (head is oldest). -/
structure EventStream where
  closed : Bool
  chClosed : Bool
  capacity : Nat
  queue : List EventData
deriving DecidableEq, Repr

/-- newEventStream in stream.go: an open stream with an empty buffer of the
given capacity. -/
def newEventStream (bufferSize : Nat) : EventStream :=
  { closed := false, chClosed := false, capacity := bufferSize, queue := [] }

/-- Errors returned by eventStream.notify: streamClosed is the
cannot-notify-closed-stream error, streamFull the channel-full error. -/
inductive StreamError where
  | streamClosed
  | streamFull
deriving DecidableEq, Repr

/-- Runtime fault raised by the Go runtime when close is called on an
already-closed channel. -/
inductive CloseFault where
  | doubleClose
deriving DecidableEq, Repr

/-- eventStream.close: a no-op when the closed flag is already set; otherwise
it sets the flag and closes the channel. Closing the channel twice would be a
Go runtime panic, modelled as a doubleClose fault. -/
def EventStream.close (s : EventStream) : Option CloseFault × EventStream :=
  if s.closed then (none, s)
  else if s.chClosed then (some CloseFault.doubleClose, s)
  else (none, { s with closed := true, chClosed := true })

/-- eventStream.notify: fails with streamClosed when the closed flag is set;
otherwise attempts a non-blocking send, which (with no concurrent receiver)
succeeds exactly when the buffer has room, and on a full buffer closes the
stream as a side effect and fails with streamFull. -/
def EventStream.notify (s : EventStream) (d : EventData) :
    Option StreamError × EventStream :=
  if s.closed then (some StreamError.streamClosed, s)
  else if s.queue.length < s.capacity then
    (none, { s with queue := s.queue ++ [d] })
  else
    (some StreamError.streamFull, s.close.2)

/-- Sequence of notify calls, collecting the result of each call and the
final stream state. -/
def notifyAll (s : EventStream) : List EventData → List (Option StreamError) × EventStream
  | [] => ([], s)
  | d :: ds =>
    let p := s.notify d
    let q := notifyAll p.2 ds
    (p.1 :: q.1, q.2)

lemma notify_ok_eq (s : EventStream) (d : EventData) (h1 : s.closed = false)
    (h2 : s.queue.length < s.capacity) :
    s.notify d = (none, { s with queue := s.queue ++ [d] }) := by
  simp [EventStream.notify, h1, h2]

lemma notifyAll_ok (ds : List EventData) : ∀ (ch : Bool) (cap : Nat) (q : List EventData),
    q.length + ds.length ≤ cap →
    notifyAll ⟨false, ch, cap, q⟩ ds
      = (List.replicate ds.length none, ⟨false, ch, cap, q ++ ds⟩) := by
  induction ds with
  | nil => intro ch cap q h2; simp [notifyAll]
  | cons d ds ih =>
    intro ch cap q h2
    simp only [List.length_cons] at h2
    have hlt : q.length < cap := by omega
    have hstep : EventStream.notify ⟨false, ch, cap, q⟩ d
        = (none, ⟨false, ch, cap, q ++ [d]⟩) := by
      simp [EventStream.notify, hlt]
    have hrec := ih ch cap (q ++ [d]) (by simp; omega)
    simp [notifyAll, hstep, hrec, List.replicate]

lemma notifyAll_append (as bs : List EventData) : ∀ s : EventStream,
    notifyAll s (as ++ bs) =
      ((notifyAll s as).1 ++ (notifyAll (notifyAll s as).2 bs).1,
        (notifyAll (notifyAll s as).2 bs).2) := by
  induction as with
  | nil => intro s; simp [notifyAll]
  | cons a as ih => intro s; simp [notifyAll, ih]

lemma notifyAll_closed (rest : List EventData) : ∀ s : EventStream, s.closed = true →
    notifyAll s rest = (List.replicate rest.length (some StreamError.streamClosed), s) := by
  induction rest with
  | nil => intro s h; simp [notifyAll]
  | cons d ds ih =>
    intro s h
    have hstep : s.notify d = (some StreamError.streamClosed, s) := by
      simp [EventStream.notify, h]
    simp [notifyAll, hstep, ih s h, List.replicate]

/-- C2: a stream of capacity K receiving K+1 notifications with no
consumption: the first K notify calls succeed, the last fails with
streamFull and closes the stream, and every further notify fails with
streamClosed. -/
theorem notify_overflow_closes (K : Nat) (front : List EventData)
    (hK : front.length = K) (dlast : EventData) :
    (notifyAll (newEventStream K) (front ++ [dlast])).1
      = List.replicate K none ++ [some StreamError.streamFull] ∧
    (notifyAll (newEventStream K) (front ++ [dlast])).2.closed = true ∧
    (∀ rest : List EventData,
      (notifyAll ((notifyAll (newEventStream K) (front ++ [dlast])).2) rest).1
        = List.replicate rest.length (some StreamError.streamClosed)) := by
  have hfront : notifyAll (newEventStream K) front
      = (List.replicate front.length none, ⟨false, false, K, [] ++ front⟩) :=
    notifyAll_ok front false K [] (by simp [hK])
  simp only [List.nil_append] at hfront
  have hsplit := notifyAll_append front [dlast] (newEventStream K)
  rw [hfront] at hsplit
  have hfull : EventStream.notify ⟨false, false, K, front⟩ dlast
      = (some StreamError.streamFull, ⟨true, true, K, front⟩) := by
    simp [EventStream.notify, EventStream.close, hK]
  have hone : notifyAll ⟨false, false, K, front⟩ [dlast]
      = ([some StreamError.streamFull], ⟨true, true, K, front⟩) := by
    simp [notifyAll, hfull]
  rw [hone] at hsplit
  refine ⟨?_, ?_, ?_⟩
  · rw [hsplit]; simp [hK]
  · rw [hsplit]
  · intro rest
    rw [hsplit, notifyAll_closed rest ⟨true, true, K, front⟩ rfl]

/-- C2 witness at capacity 2 with three notifications and one more after
the overflow. -/
theorem notify_overflow_closes_witness :
    (notifyAll (newEventStream 2) ([⟨0, 0, 0⟩, ⟨1, 1, 1⟩] ++ [⟨2, 2, 2⟩])).1
      = List.replicate 2 none ++ [some StreamError.streamFull] ∧
    (notifyAll (newEventStream 2) ([⟨0, 0, 0⟩, ⟨1, 1, 1⟩] ++ [⟨2, 2, 2⟩])).2.closed = true ∧
    (∀ rest : List EventData,
      (notifyAll ((notifyAll (newEventStream 2) ([⟨0, 0, 0⟩, ⟨1, 1, 1⟩] ++ [⟨2, 2, 2⟩])).2)
          rest).1 = List.replicate rest.length (some StreamError.streamClosed)) :=
  notify_overflow_closes 2 [⟨0, 0, 0⟩, ⟨1, 1, 1⟩] rfl ⟨2, 2, 2⟩

/-- C6: notify on a closed stream fails with streamClosed and leaves the
stream state (queue contents and flags) exactly as it was. -/
theorem notify_closed_noop (s : EventStream) (d : EventData) (h : s.closed = true) :
    s.notify d = (some StreamError.streamClosed, s) := by
  simp [EventStream.notify, h]

/-- C6 witness on a concrete closed stream. -/
theorem notify_closed_noop_witness :
    EventStream.notify ⟨true, true, 1, []⟩ ⟨0, 0, 0⟩
      = (some StreamError.streamClosed, ⟨true, true, 1, []⟩) :=
  notify_closed_noop ⟨true, true, 1, []⟩ ⟨0, 0, 0⟩ rfl

/-- C7: close is idempotent; under the per-stream invariant that the closed
flag tracks the channel state, the first close faults nothing and marks the
stream closed, and a second close is a no-op returning the same state with
no double-close fault. -/
theorem close_idempotent (s : EventStream) (h : s.chClosed = s.closed) :
    s.close.1 = none ∧ s.close.2.closed = true ∧ s.close.2.chClosed = true ∧
    s.close.2.close = (none, s.close.2) := by
  cases hc : s.closed with
  | true =>
    have hch : s.chClosed = true := by rw [h, hc]
    simp [EventStream.close, hc, hch]
  | false =>
    have hch : s.chClosed = false := by rw [h, hc]
    simp [EventStream.close, hc, hch]

/-- C7 witness on a freshly created stream. -/
theorem close_idempotent_witness :
    (newEventStream 1).close.1 = none ∧ (newEventStream 1).close.2.closed = true ∧
    (newEventStream 1).close.2.chClosed = true ∧
    (newEventStream 1).close.2.close = (none, (newEventStream 1).close.2) :=
  close_idempotent (newEventStream 1) rfl

/-- C8: notify on an open stream with spare capacity succeeds and the only
state change is the event appended at the tail of the queue; the flags and
all previously queued events are untouched. -/
theorem notify_enqueue_frame (s : EventStream) (d : EventData) (h1 : s.closed = false)
    (h2 : s.queue.length < s.capacity) :
    s.notify d = (none, { s with queue := s.queue ++ [d] }) :=
  notify_ok_eq s d h1 h2

/-- C8 witness on a fresh stream of capacity 2. -/
theorem notify_enqueue_frame_witness :
    (newEventStream 2).notify ⟨5, 6, 7⟩
      = (none, { newEventStream 2 with queue := (newEventStream 2).queue ++ [⟨5, 6, 7⟩] }) :=
  notify_enqueue_frame (newEventStream 2) ⟨5, 6, 7⟩ rfl (by decide)

/-!
Account Notifier. The AccountNotifier implementation is not among the source
files (only its tests are), so the affected-account computation and the
fan-out are modelled from the spec. Account addresses and stream identities
are abstracted to numbers; the open or closed status of each registered
stream is an oracle parameter.
-/

/-- Modelled from the spec: one operation of a transaction, reduced to the
only field the affected-account derivation reads, its optional explicit
source account. -/
structure XOperation where
  sourceAccount : Option Nat
deriving DecidableEq, Repr

/-- Modelled from the spec: a transaction envelope, reduced to its top-level
source account and its operations. -/
structure TxEnvelope where
  sourceAccount : Nat
  operations : List XOperation
deriving DecidableEq, Repr

/-- Kinds of ledger entry change appearing in transaction metadata. -/
inductive LECType where
  | created
  | updated
  | removed
  | state
deriving DecidableEq, Repr

/-- One ledger entry change from the metadata: its kind and the account the
entry belongs to. -/
structure LEChange where
  changeType : LECType
  account : Nat
deriving DecidableEq, Repr

/-- Metadata of one operation: its ledger entry changes. -/
structure XOperationMeta where
  changes : List LEChange
deriving DecidableEq, Repr

/-- Transaction metadata: per-operation metadata. -/
structure TxMeta where
  operations : List XOperationMeta
deriving DecidableEq, Repr

/-- A change contributes an affected account when the entry was created,
updated or removed (a state change does not). -/
def changeAffects : LECType → Bool
  | LECType.created => true
  | LECType.updated => true
  | LECType.removed => true
  | LECType.state => false

/-- Modelled from the spec: the affected accounts of a transaction are, per
operation, its explicit source account if set and otherwise the top-level
envelope source, together with every account whose ledger entry was created,
updated or removed according to the metadata. -/
def affectedAccounts (e : TxEnvelope) (m : TxMeta) : List Nat :=
  e.operations.map (fun op => op.sourceAccount.getD e.sourceAccount) ++
    m.operations.flatMap
      (fun om => (om.changes.filter (fun c => changeAffects c.changeType)).map
        (fun c => c.account))

/-- Modelled from the spec: OnTransaction delivers the event once to every
stream registered (registry pairs an address with a stream identifier) under
some affected account and still open; the returned list is the set of stream
identifiers receiving the event. -/
def onTransactionDeliveries (registry : List (Nat × Nat)) (opn : Nat → Bool)
    (e : TxEnvelope) (m : TxMeta) : List Nat :=
  ((registry.filter (fun p => decide (p.1 ∈ affectedAccounts e m) && opn p.2)).map
    Prod.snd).dedup

/-- A payment envelope with effective source a and channel source c: the
envelope source is c and the single payment operation names a explicitly. -/
def paymentEnvelope (c a : Nat) : TxEnvelope :=
  { sourceAccount := c, operations := [{ sourceAccount := some a }] }

/-- Metadata of a payment from a to b with fee payer c: the ledger entries
of all three accounts are updated. -/
def paymentMeta (c a b : Nat) : TxMeta :=
  { operations := [{ changes :=
      [{ changeType := LECType.updated, account := c },
        { changeType := LECType.updated, account := a },
        { changeType := LECType.updated, account := b }] }] }

/-- C3: OnTransaction delivers exactly once to each open stream registered
under an affected account and to no other stream; in particular a payment
from a to b with channel source c reaches every open subscriber of a, b
and c. -/
theorem onTransaction_delivery (registry : List (Nat × Nat)) (opn : Nat → Bool) :
    (∀ e m, (onTransactionDeliveries registry opn e m).Nodup ∧
      (∀ sid, sid ∈ onTransactionDeliveries registry opn e m ↔
        opn sid = true ∧ ∃ a, a ∈ affectedAccounts e m ∧ (a, sid) ∈ registry)) ∧
    (∀ a b c sid, opn sid = true →
      ((a, sid) ∈ registry ∨ (b, sid) ∈ registry ∨ (c, sid) ∈ registry) →
      sid ∈ onTransactionDeliveries registry opn (paymentEnvelope c a) (paymentMeta c a b)) := by
  have key : ∀ e m sid, sid ∈ onTransactionDeliveries registry opn e m ↔
      opn sid = true ∧ ∃ a, a ∈ affectedAccounts e m ∧ (a, sid) ∈ registry := by
    intro e m sid
    simp only [onTransactionDeliveries, List.mem_dedup, List.mem_map, List.mem_filter,
      Bool.and_eq_true, decide_eq_true_eq]
    constructor
    · rintro ⟨⟨x, y⟩, ⟨hmem, haff, hopen⟩, hsnd⟩
      subst hsnd
      exact ⟨hopen, x, haff, hmem⟩
    · rintro ⟨hopen, x, haff, hmem⟩
      exact ⟨(x, sid), ⟨hmem, haff, hopen⟩, rfl⟩
  refine ⟨fun e m => ⟨List.nodup_dedup _, key e m⟩, ?_⟩
  intro a b c sid hopen hreg
  refine (key (paymentEnvelope c a) (paymentMeta c a b) sid).mpr ⟨hopen, ?_⟩
  have haff : a ∈ affectedAccounts (paymentEnvelope c a) (paymentMeta c a b) ∧
      b ∈ affectedAccounts (paymentEnvelope c a) (paymentMeta c a b) ∧
      c ∈ affectedAccounts (paymentEnvelope c a) (paymentMeta c a b) := by
    simp [affectedAccounts, paymentEnvelope, paymentMeta, changeAffects]
  rcases hreg with h | h | h
  · exact ⟨a, haff.1, h⟩
  · exact ⟨b, haff.2.1, h⟩
  · exact ⟨c, haff.2.2, h⟩

/-- C3 witness: a concrete registry with one stream on each of the three
accounts of a channel payment; the stream on the effective source receives
the event. -/
theorem onTransaction_delivery_witness :
    42 ∈ onTransactionDeliveries [(7, 42), (8, 43), (9, 44)] (fun _ => true)
      (paymentEnvelope 9 7) (paymentMeta 9 7 8) :=
  (onTransaction_delivery [(7, 42), (8, 43), (9, 44)] (fun _ => true)).2 7 8 9 42 rfl
    (Or.inl (by simp))

/-!
Ledger Ingestor. The stellar ingestor implementation is not among the source
files (only its test is), so the cursor encoding, the per-ledger entry
construction and the hash-chained result feed are modelled from the spec.
The two-level queue-of-channels delivery is collapsed to the in-order list
of results it guarantees; the block fingerprint is an arbitrary function of
the ingested entries, and fetch or write failures are an oracle assigning an
optional error code to each ledger.
-/

/-- One source transaction of a ledger: its raw envelope and result bytes,
modelled as byte lists. -/
structure Txn where
  envelopeXdr : List Nat
  resultXdr : List Nat
deriving DecidableEq, Repr

/-- One ledger as served by the ledger API: its sequence number and its
transactions. -/
structure HLedger where
  sequence : Nat
  txns : List Txn
deriving DecidableEq, Repr

/-- One persisted history entry: the chain version tag, the sequence of the
ledger it came from, and the raw envelope and result bytes. -/
structure Entry where
  version : Nat
  ledger : Nat
  envelopeXdr : List Nat
  resultXdr : List Nat
deriving DecidableEq, Repr

/-- Outcome of ingesting one ledger: the block fingerprint of its entries,
the expected fingerprint of the previous ledger, and an optional error. -/
structure IngestResult (H : Type) where
  block : Option H
  parent : Option H
  err : Option Nat
deriving DecidableEq, Repr

/-- Modelled from the spec: the entries written for one ledger, one per
transaction, each tagged with the chain version and the ledger sequence and
carrying the raw envelope and result bytes of its transaction. -/
def entriesForLedger (v : Nat) (l : HLedger) : List Entry :=
  l.txns.map (fun t => ⟨v, l.sequence, t.envelopeXdr, t.resultXdr⟩)

/-- Modelled from the spec: the ordered result feed and the concatenated
writer input of an ingestion run, threading the previous block fingerprint;
a failed ledger yields a result carrying the error and no block and writes
nothing. -/
def ingestChain {H : Type} (hash : List Entry → H) (v : Nat)
    (fail : HLedger → Option Nat) :
    Option H → List HLedger → List (IngestResult H) × List Entry
  | _, [] => ([], [])
  | prev, l :: rest =>
    match fail l with
    | some e =>
      let p := ingestChain hash v fail prev rest
      ({ block := none, parent := prev, err := some e } :: p.1, p.2)
    | none =>
      let entries := entriesForLedger v l
      let b := hash entries
      let p := ingestChain hash v fail (some b) rest
      ({ block := some b, parent := prev, err := none } :: p.1, entries ++ p.2)

/-- The parent fields of a result list form a hash chain rooted at the given
fingerprint: each result carries the previous block. -/
def chained {H : Type} : Option H → List (IngestResult H) → Prop
  | _, [] => True
  | prev, r :: rs => r.parent = prev ∧ chained r.block rs

lemma ingestChain_chained {H : Type} (hash : List Entry → H) (v : Nat)
    (fail : HLedger → Option Nat) (ledgers : List HLedger) :
    ∀ prev : Option H,
      (∀ r ∈ (ingestChain hash v fail prev ledgers).1, r.err = none) →
      chained prev (ingestChain hash v fail prev ledgers).1 := by
  induction ledgers with
  | nil => intro prev _; simp [ingestChain, chained]
  | cons l rest ih =>
    intro prev hnoerr
    cases hf : fail l with
    | some e =>
      exfalso
      have : (⟨none, prev, some e⟩ : IngestResult H)
          ∈ (ingestChain hash v fail prev (l :: rest)).1 := by
        simp [ingestChain, hf]
      have := hnoerr _ this
      simp at this
    | none =>
      have htail := ih (some (hash (entriesForLedger v l))) (by
        intro r hr
        refine hnoerr r ?_
        simp [ingestChain, hf]
        exact Or.inr hr)
      simp [ingestChain, hf, chained, htail]

lemma chained_head {H : Type} (rs : List (IngestResult H)) (prev : Option H)
    (hch : chained prev rs) (h0 : 0 < rs.length) :
    (rs.get ⟨0, h0⟩).parent = prev := by
  cases rs with
  | nil => simp at h0
  | cons r rs2 => exact hch.1

lemma chained_consecutive {H : Type} (rs : List (IngestResult H)) :
    ∀ prev : Option H, chained prev rs →
      ∀ i : Nat, ∀ h : i + 1 < rs.length,
        (rs.get ⟨i + 1, h⟩).parent
          = (rs.get ⟨i, Nat.lt_of_succ_lt h⟩).block := by
  induction rs with
  | nil => intro prev _ i h; simp at h
  | cons r rs ih =>
    intro prev hch i h
    cases i with
    | zero =>
      cases rs with
      | nil => simp at h
      | cons r2 rs2 => exact hch.2.1
    | succ j =>
      exact ih r.block hch.2 j (by simpa using h)

/-- C1: in an ingestion run from a cold start in which no delivered result
carries an error, every result after the first has as parent the block of
the result before it, and the first result has a nil error and no enforced
parent. -/
theorem ingest_chain_invariant {H : Type} (hash : List Entry → H) (v : Nat)
    (fail : HLedger → Option Nat) (ledgers : List HLedger)
    (hnoerr : ∀ r ∈ (ingestChain hash v fail none ledgers).1, r.err = none) :
    (∀ i : Nat, ∀ h : i + 1 < (ingestChain hash v fail none ledgers).1.length,
      ((ingestChain hash v fail none ledgers).1.get ⟨i + 1, h⟩).parent
        = ((ingestChain hash v fail none ledgers).1.get
            ⟨i, Nat.lt_of_succ_lt h⟩).block) ∧
    (∀ h0 : 0 < (ingestChain hash v fail none ledgers).1.length,
      ((ingestChain hash v fail none ledgers).1.get ⟨0, h0⟩).err = none ∧
      ((ingestChain hash v fail none ledgers).1.get ⟨0, h0⟩).parent = none) := by
  have hch := ingestChain_chained hash v fail ledgers none hnoerr
  refine ⟨chained_consecutive _ none hch, ?_⟩
  intro h0
  exact ⟨hnoerr _ (List.get_mem _ _ _), chained_head _ none hch h0⟩

/-- C1 witness: two concrete ledgers, a length fingerprint and no failures. -/
theorem ingest_chain_invariant_witness :
    (∀ i : Nat, ∀ h : i + 1 < (ingestChain List.length 3 (fun _ => none) none
        [⟨0, [⟨[1], [2]⟩]⟩, ⟨1, []⟩]).1.length,
      ((ingestChain List.length 3 (fun _ => none) none
          [⟨0, [⟨[1], [2]⟩]⟩, ⟨1, []⟩]).1.get ⟨i + 1, h⟩).parent
        = ((ingestChain List.length 3 (fun _ => none) none
            [⟨0, [⟨[1], [2]⟩]⟩, ⟨1, []⟩]).1.get ⟨i, Nat.lt_of_succ_lt h⟩).block) ∧
    (∀ h0 : 0 < (ingestChain List.length 3 (fun _ => none) none
        [⟨0, [⟨[1], [2]⟩]⟩, ⟨1, []⟩]).1.length,
      ((ingestChain List.length 3 (fun _ => none) none
          [⟨0, [⟨[1], [2]⟩]⟩, ⟨1, []⟩]).1.get ⟨0, h0⟩).err = none ∧
      ((ingestChain List.length 3 (fun _ => none) none
          [⟨0, [⟨[1], [2]⟩]⟩, ⟨1, []⟩]).1.get ⟨0, h0⟩).parent = none) :=
  ingest_chain_invariant List.length 3 (fun _ => none)
    [⟨0, [⟨[1], [2]⟩]⟩, ⟨1, []⟩] (by decide)

lemma ingestChain_writes {H : Type} (hash : List Entry → H) (v : Nat)
    (ledgers : List HLedger) : ∀ prev : Option H,
    (ingestChain hash v (fun _ => none) prev ledgers).2
      = ledgers.flatMap (entriesForLedger v) := by
  induction ledgers with
  | nil => intro prev; simp [ingestChain]
  | cons l rest ih => intro prev; simp [ingestChain, ih]

lemma length_flatMap_entries (v : Nat) (ledgers : List HLedger) :
    (ledgers.flatMap (entriesForLedger v)).length
      = (ledgers.map (fun l => l.txns.length)).sum := by
  induction ledgers with
  | nil => simp
  | cons l rest ih =>
    simp only [List.flatMap_cons, List.length_append, List.map_cons, List.sum_cons, ih]
    simp [entriesForLedger]

/-- C5: in an ingestion run with no failures the writer receives one entry
per source transaction (so exactly the total transaction count), every
entry is tagged with the configured version and the sequence of its ledger,
its bytes are exactly those of its source transaction, and every source
transaction is represented. -/
theorem ingest_round_trip {H : Type} (hash : List Entry → H) (v : Nat)
    (ledgers : List HLedger) :
    (ingestChain hash v (fun _ => none) none ledgers).2
      = ledgers.flatMap (entriesForLedger v) ∧
    (ingestChain hash v (fun _ => none) none ledgers).2.length
      = (ledgers.map (fun l => l.txns.length)).sum ∧
    (∀ en ∈ (ingestChain hash v (fun _ => none) none ledgers).2,
      en.version = v ∧ ∃ l ∈ ledgers, en.ledger = l.sequence ∧
        ∃ t ∈ l.txns, en.envelopeXdr = t.envelopeXdr ∧ en.resultXdr = t.resultXdr) ∧
    (∀ l ∈ ledgers, ∀ t ∈ l.txns,
      (⟨v, l.sequence, t.envelopeXdr, t.resultXdr⟩ : Entry)
        ∈ (ingestChain hash v (fun _ => none) none ledgers).2) := by
  have hw := ingestChain_writes hash v ledgers none
  refine ⟨hw, ?_, ?_, ?_⟩
  · rw [hw]; exact length_flatMap_entries v ledgers
  · intro en hen
    rw [hw] at hen
    rcases List.mem_flatMap.mp hen with ⟨l, hl, hin⟩
    rcases List.mem_map.mp hin with ⟨t, ht, rfl⟩
    exact ⟨rfl, l, hl, rfl, t, ht, rfl, rfl⟩
  · intro l hl t ht
    rw [hw]
    refine List.mem_flatMap.mpr ⟨l, hl, ?_⟩
    exact List.mem_map.mpr ⟨t, ht, rfl⟩

/-- C5 witness: a concrete two-ledger run with three transactions. -/
theorem ingest_round_trip_witness :
    (⟨9, 4, [1, 2], [3]⟩ : Entry)
      ∈ (ingestChain List.length 9 (fun _ => none) none
          [⟨4, [⟨[1, 2], [3]⟩, ⟨[5], [6]⟩]⟩, ⟨5, [⟨[7], [8]⟩]⟩]).2 :=
  (ingest_round_trip List.length 9
      [⟨4, [⟨[1, 2], [3]⟩, ⟨[5], [6]⟩]⟩, ⟨5, [⟨[7], [8]⟩]⟩]).2.2.2
    ⟨4, [⟨[1, 2], [3]⟩, ⟨[5], [6]⟩]⟩ (by simp) ⟨[1, 2], [3]⟩ (by simp)

/-!
Cursor encoding and initial subscription parameters, modelled from the spec:
the resumption pointer encodes a chain version and a ledger sequence, the
cursor token places the sequence in the high 32 bits, a nil pointer encodes
to the zero token, and Ingest opens the ledger subscription at that cursor
in ascending order.
-/

/-- Modelled from the spec: a resumption pointer tagging a chain version and
a ledger sequence. -/
structure Pointer where
  version : Nat
  sequence : Nat
deriving DecidableEq, Repr

/-- pointerFromSequence as used by the ingestor test: a pointer for the
given chain version and ledger sequence. -/
def pointerFromSequence (v s : Nat) : Pointer := ⟨v, s⟩

/-- Modelled from the spec: the paging token of a pointer, the decimal
rendering of the sequence shifted into the high bits above the 32-bit
transaction index; a nil pointer yields the zero token. -/
def cursorFromPointer : Option Pointer → String
  | none => Nat.repr 0
  | some p => Nat.repr (p.sequence <<< 32)

/-- Sort orders of a ledger subscription request. -/
inductive HOrder where
  | asc
  | desc
deriving DecidableEq, Repr

/-- A ledger subscription request: starting cursor and sort order. -/
structure LedgerRequest where
  cursor : String
  order : HOrder
deriving DecidableEq, Repr

/-- Modelled from the spec: the subscription request Ingest opens for a
given start pointer, at the cursor of the pointer and in ascending order. -/
def ingestRequest (p : Option Pointer) : LedgerRequest :=
  { cursor := cursorFromPointer p, order := HOrder.asc }

/-- C4: Ingest subscribes in ascending order at the cursor of the start
pointer: the zero token for a nil pointer, and the decimal rendering of
sequence times 2 to the 32 otherwise; sequence 1024 yields the cursor
observed by the test. -/
theorem ingest_initial_params :
    (∀ p, (ingestRequest p).order = HOrder.asc) ∧
    (ingestRequest none).cursor = "0" ∧
    (∀ v s, (ingestRequest (some (pointerFromSequence v s))).cursor
      = Nat.repr (s * 2 ^ 32)) ∧
    (ingestRequest (some (pointerFromSequence 3 1024))).cursor = "4398046511104" := by
  refine ⟨fun p => rfl, rfl, ?_, ?_⟩
  · intro v s
    simp [ingestRequest, cursorFromPointer, pointerFromSequence, Nat.shiftLeft_eq]
  · rfl

/-!
DynamoDB invoice store, from pkg/invoice/dynamodb/dynamodb.go. The datastore
is a function from the request key to a response, an error or a list of item
attributes (the empty list is the empty item); fromItem, which lives in a
sibling file of the package and only deserialises a non-empty item, is an
oracle whose failures are deserialisation errors, distinct from every store
error. The second component of the result records the datastore requests the
call issued.
-/

/-- Key of the GetItem request built by Get: the invoice hash and the
transaction hash. -/
structure GetItemKey where
  invoiceHash : List Nat
  txHash : List Nat
deriving DecidableEq, Repr

/-- Errors surfaced by the invoice store Get: the two validation errors
carry the offending length, and notFound is invoice.ErrNotFound. -/
inductive InvoiceError where
  | invalidInvoiceHashLen (n : Nat)
  | invalidTxHashLen (n : Nat)
  | getRequestFailed
  | itemUnmarshalFailed
  | notFound
deriving DecidableEq, Repr

/-- db.Get of the invoice store: validates the two hash lengths before any
request, then issues one GetItem request, maps an empty item to notFound and
otherwise deserialises it. -/
def invoiceGet (send : GetItemKey → Except Unit (List Nat))
    (fromItem : List Nat → Except Unit Nat)
    (invoiceHash txHash : List Nat) : Except InvoiceError Nat × List GetItemKey :=
  if invoiceHash.length ≠ 28 then
    (Except.error (InvoiceError.invalidInvoiceHashLen invoiceHash.length), [])
  else if txHash.length ≠ 32 then
    (Except.error (InvoiceError.invalidTxHashLen txHash.length), [])
  else
    match send ⟨invoiceHash, txHash⟩ with
    | Except.error _ =>
      (Except.error InvoiceError.getRequestFailed, [⟨invoiceHash, txHash⟩])
    | Except.ok item =>
      if item.length = 0 then
        (Except.error InvoiceError.notFound, [⟨invoiceHash, txHash⟩])
      else
        match fromItem item with
        | Except.error _ =>
          (Except.error InvoiceError.itemUnmarshalFailed, [⟨invoiceHash, txHash⟩])
        | Except.ok inv => (Except.ok inv, [⟨invoiceHash, txHash⟩])

/-- C9: on an invoice hash not of length 28 or a transaction hash not of
length 32, Get fails with the matching validation error and issues no
datastore request; on valid lengths it issues exactly one request and
returns notFound exactly when the datastore answers with the empty item. -/
theorem invoice_get_spec (send : GetItemKey → Except Unit (List Nat))
    (fromItem : List Nat → Except Unit Nat) (ih th : List Nat) :
    (¬ (ih.length = 28 ∧ th.length = 32) →
      (invoiceGet send fromItem ih th).2 = [] ∧
      ((invoiceGet send fromItem ih th).1
          = Except.error (InvoiceError.invalidInvoiceHashLen ih.length) ∨
        (invoiceGet send fromItem ih th).1
          = Except.error (InvoiceError.invalidTxHashLen th.length))) ∧
    (ih.length = 28 → th.length = 32 →
      (invoiceGet send fromItem ih th).2 = [⟨ih, th⟩] ∧
      ((invoiceGet send fromItem ih th).1 = Except.error InvoiceError.notFound ↔
        send ⟨ih, th⟩ = Except.ok [])) := by
  constructor
  · intro hbad
    by_cases h28 : ih.length = 28
    · have h32 : th.length ≠ 32 := fun h => hbad ⟨h28, h⟩
      simp [invoiceGet, h28, h32]
    · simp [invoiceGet, h28]
  · intro h28 h32
    simp only [invoiceGet, h28, h32]
    cases hs : send ⟨ih, th⟩ with
    | error e => simp [hs]
    | ok item =>
      by_cases hlen : item.length = 0
      · have : item = [] := List.length_eq_zero.mp hlen
        subst this
        simp
      · have hne : item ≠ [] := fun h => hlen (by simp [h])
        cases hfi : fromItem item with
        | error e2 => simp [hlen, hfi, hne]
        | ok inv => simp [hlen, hfi, hne]

/-- C9 witness: an invoice hash of the wrong length issues no request, and
with valid hashes an empty datastore item yields notFound. -/
theorem invoice_get_spec_witness :
    (invoiceGet (fun _ => Except.ok []) (fun _ => Except.error ())
        [1] (List.replicate 32 0)).2 = [] ∧
    (invoiceGet (fun _ => Except.ok []) (fun _ => Except.error ())
        (List.replicate 28 0) (List.replicate 32 0)).1
      = Except.error InvoiceError.notFound :=
  ⟨((invoice_get_spec (fun _ => Except.ok []) (fun _ => Except.error ())
        [1] (List.replicate 32 0)).1 (by simp)).1,
    ((invoice_get_spec (fun _ => Except.ok []) (fun _ => Except.error ())
        (List.replicate 28 0) (List.replicate 32 0)).2 (by simp) (by simp)).2.mpr rfl⟩

/-!
DynamoDB account-info cache, from pkg/account/solana/accountinfo/dynamodb/
cache.go. The datastore and the item deserialiser (which also yields the
stored expiry time) are oracles as for the invoice store; the current time
is an explicit parameter standing for the moment Get reads the clock.
-/

/-- Errors surfaced by the cache Get; accountInfoNotFound is the
accountinfo.ErrAccountInfoNotFound error. -/
inductive CacheError where
  | requestFailed
  | itemDecodeFailed
  | accountInfoNotFound
deriving DecidableEq, Repr

/-- cache.Get: one GetItem request by key; an empty item is a miss, and a
stored item is served unless its expiry is before the current time. -/
def cacheGet (send : List Nat → Except Unit (List Nat))
    (fromItem : List Nat → Except Unit (Nat × Int))
    (now : Int) (key : List Nat) : Except CacheError Nat :=
  match send key with
  | Except.error _ => Except.error CacheError.requestFailed
  | Except.ok item =>
    if item.length = 0 then Except.error CacheError.accountInfoNotFound
    else
      match fromItem item with
      | Except.error _ => Except.error CacheError.itemDecodeFailed
      | Except.ok p =>
        if p.2 < now then Except.error CacheError.accountInfoNotFound
        else Except.ok p.1

/-- C10 counterexample: a stored item whose expiry equals the current time,
so the expiry is not after now, is still served by Get instead of failing
with the not-found error; this refutes the claim that a cached info is
returned only when its expiry is strictly in the future. -/
theorem cache_get_boundary_counterexample :
    ¬ ((5 : Int) < 5) ∧
    cacheGet (fun _ => Except.ok [1]) (fun _ => Except.ok (77, 5)) 5 [0]
      = Except.ok 77 :=
  ⟨by decide, rfl⟩

/-- C10 amended: Get fails with the not-found error both when the datastore
answers with the empty item and when the stored expiry is strictly before
the current time, and serves the cached info whenever the stored expiry is
at or after the current time. -/
theorem cache_get_expiry (send : List Nat → Except Unit (List Nat))
    (fromItem : List Nat → Except Unit (Nat × Int)) (now : Int) (key : List Nat) :
    (send key = Except.ok [] →
      cacheGet send fromItem now key = Except.error CacheError.accountInfoNotFound) ∧
    (∀ item info expiry, send key = Except.ok item → item ≠ [] →
      fromItem item = Except.ok (info, expiry) →
      (expiry < now →
        cacheGet send fromItem now key = Except.error CacheError.accountInfoNotFound) ∧
      (now ≤ expiry → cacheGet send fromItem now key = Except.ok info)) := by
  constructor
  · intro hs
    simp [cacheGet, hs]
  · intro item info expiry hs hne hfi
    have hlen : ¬ item.length = 0 := fun h => hne (List.length_eq_zero.mp h)
    constructor
    · intro hexp
      simp [cacheGet, hs, hlen, hfi, hexp]
    · intro hexp
      have : ¬ (expiry < now) := not_lt.mpr hexp
      simp [cacheGet, hs, hlen, hfi, this]

/-- C10 amended witness: a miss on the empty item and a hit on an entry
expiring after the current time. -/
theorem cache_get_expiry_witness :
    cacheGet (fun _ => Except.ok []) (fun _ => Except.ok (77, 9)) 5 [0]
      = Except.error CacheError.accountInfoNotFound ∧
    cacheGet (fun _ => Except.ok [1]) (fun _ => Except.ok (77, 9)) 5 [0]
      = Except.ok 77 :=
  ⟨(cache_get_expiry (fun _ => Except.ok []) (fun _ => Except.ok (77, 9)) 5 [0]).1 rfl,
    ((cache_get_expiry (fun _ => Except.ok [1]) (fun _ => Except.ok (77, 9)) 5 [0]).2
        [1] 77 9 rfl (by simp) rfl).2 (by decide)⟩
